import Mathlib

/-!
Shallow embedding of the muza synthesizer (src/muza/src/main.rs) and proofs
about its tuning model, waveform generators, sample synthesis and render grid.

Modelling conventions:
* Rust f64 arithmetic is modelled by exact real arithmetic over ℝ.  Where a
  property is specifically about double-precision rounding, a second,
  bit-accurate model of nonnegative binary64 values as mantissa/exponent
  pairs (ℕ × ℤ, value = m * 2 ^ e) is used; every arithmetic step of that
  model performs one round-to-nearest-even at 53 significant bits, exactly
  as IEEE-754 binary64 does on the normal range used here.
* Machine integers are modelled as ℤ with the wrapping casts made explicit
  (the i64 → i32 cast in Ruler::power is the wrap32 function below).
* Rust integer division `/` on i32 truncates toward zero: Int.tdiv.
  Rust i64::rem_euclid is Euclidean remainder: `%` on ℤ.
* The `as usize` cast of a nonnegative f64 truncates (= floor); negative
  inputs saturate to 0, which Int.toNat of the floor also yields.
-/

namespace Muza

namespace constants

/-- FRAME_RATE constant from pub mod constants. -/
def FRAME_RATE : ℕ := 48000

/-- CHANNELS constant from pub mod constants. -/
def CHANNELS : ℕ := 2

end constants

namespace wave_forms

/-- wave_forms::sqr: 1.0 for phase below one half, else -1.0. -/
noncomputable def sqr (x : ℝ) : ℝ := if x < 0.5 then 1.0 else -1.0

/-- wave_forms::saw: 1.0 - 2.0 * x. -/
noncomputable def saw (x : ℝ) : ℝ := 1.0 - 2.0 * x

/-- wave_forms::tri: piecewise-linear triangle (early returns become nested ifs). -/
noncomputable def tri (x : ℝ) : ℝ :=
  if x < 0.25 then 4.0 * x else if x < 0.75 then 2.0 - 4.0 * x else 4.0 * x - 4.0

/-- wave_forms::sin: (2.0 * PI * x).sin(). -/
noncomputable def sin (x : ℝ) : ℝ := Real.sin (2 * Real.pi * x)

end wave_forms

/-- duration_to_frame: (duration * FRAME_RATE as f64) as usize. -/
noncomputable def duration_to_frame (duration : ℝ) : ℕ :=
  (⌊duration * (constants.FRAME_RATE : ℝ)⌋).toNat

/-- frame_to_duration: frame as f64 / FRAME_RATE as f64. -/
noncomputable def frame_to_duration (frame : ℕ) : ℝ :=
  (frame : ℝ) / (constants.FRAME_RATE : ℝ)

/-- Truncation toward zero of a real number, the rounding used by the f64
remainder operator. -/
noncomputable def realTrunc (x : ℝ) : ℤ := if 0 ≤ x then ⌊x⌋ else ⌈x⌉

/-- The f64 remainder operator x % y of Rust: the remainder of truncating
division, carrying the sign of the dividend. -/
noncomputable def fmod (x y : ℝ) : ℝ := x - y * realTrunc (x / y)

/-- WaveFormer: per-render descriptor (waveform, duration, frequency). -/
structure WaveFormer where
  waveform : ℝ → ℝ
  duration : ℝ
  frequency : ℝ

/-- WaveFormer::render, sample computation only: for each frame below
duration_to_frame(duration), phase = seconds * frequency % 1.0 and the
single sample waveform(phase) * 0.5 is written once per channel.  The
model returns the ordered list of frames, each the list of its CHANNELS
(identical) samples; the i/o plumbing around the loop is not modelled. -/
noncomputable def WaveFormer.render (w : WaveFormer) : List (List ℝ) :=
  (List.range (duration_to_frame w.duration)).map fun frame =>
    List.replicate constants.CHANNELS
      (w.waveform (fmod (frame_to_duration frame * w.frequency) 1.0) * 0.5)

/-- WaveFormerBuilder: three optional fields. -/
structure WaveFormerBuilder where
  waveform : Option (ℝ → ℝ)
  duration : Option ℝ
  frequency : Option ℝ

/-- WaveFormerBuilder::new: all fields unset. -/
def WaveFormerBuilder.new : WaveFormerBuilder := ⟨none, none, none⟩

/-- WaveFormerBuilder::build.  Note the source really reads
frequency: self.duration.unwrap_or(360.0) - the frequency field is
defaulted from the duration field. -/
noncomputable def WaveFormerBuilder.build (b : WaveFormerBuilder) : WaveFormer where
  waveform := b.waveform.getD wave_forms.sin
  duration := b.duration.getD 1.0
  frequency := b.duration.getD 360.0

/-- Ruler: base frequency, tempo, and the 12-entry just-intonation table. -/
structure Ruler where
  frequency : ℝ
  bpm : ℝ
  rations : Fin 12 → ℝ

/-- Ruler::default: 440 Hz, 120 BPM, the just-intonation ratio table. -/
noncomputable def Ruler.default : Ruler where
  frequency := 440
  bpm := 120
  rations :=
    ![1, 256 / 243, 9 / 8, 32 / 27, 81 / 64, 4 / 3,
      Real.sqrt 2, 3 / 2, 128 / 81, 27 / 16, 16 / 9, 256 / 128]

/-- Ruler::ration: self.rations[note.rem_euclid(self.rations.len() as i64) as usize];
the table length is 12 by its type. -/
noncomputable def Ruler.ration (r : Ruler) (note : ℤ) : ℝ :=
  r.rations ⟨(note % 12).toNat, by omega⟩

/-- The wrapping i64 → i32 cast (`note as i32` in Ruler::power). -/
def wrap32 (n : ℤ) : ℤ := (n + 2 ^ 31) % 2 ^ 32 - 2 ^ 31

/-- The exponent computed inside Ruler::power: length = rations.len() as i32 = 12,
note is cast to i32 (wrapping), then i32 division truncates toward zero. -/
def powExp (note : ℤ) : ℤ :=
  if wrap32 note < 0 then (wrap32 note + 1).tdiv 12 - 1 else (wrap32 note).tdiv 12

/-- Ruler::power: 2.0f64.powi of the exponent above. -/
noncomputable def Ruler.power (_r : Ruler) (note : ℤ) : ℝ := (2 : ℝ) ^ powExp note

/-- Ruler::frequency(note): self.frequency * self.ration(note) * self.power(note). -/
noncomputable def Ruler.frequencyAt (r : Ruler) (note : ℤ) : ℝ :=
  r.frequency * r.ration note * r.power note

/-- Ruler::duration: self.bpm / 60.0 * ration. -/
noncomputable def Ruler.duration (r : Ruler) (ration : ℝ) : ℝ :=
  r.bpm / 60 * ration

/-- The ruler constructed in main: frequency 440, rest defaulted. -/
noncomputable def rulerMain : Ruler := { Ruler.default with frequency := 440 }

/-- octaves constant in main. -/
def octaves : ℕ := 8

/-- offset constant in main. -/
def offset : ℤ := 36

/-- The fixed lengths array of each worker in main. -/
def lengths : List ℕ := [1, 2, 4, 8]

/-- The output path format of main:
"out/o[{job}]/n[{abs}]/o[{job}] n[{abs}] l[{length}].wav". -/
def mkPath (job : ℕ) (abs : ℤ) (length : ℕ) : String :=
  "out/o[" ++ toString job ++ "]/n[" ++ toString abs ++ "]/o[" ++ toString job
    ++ "] n[" ++ toString abs ++ "] l[" ++ toString length ++ "].wav"

/-- One render call of the main grid: worker job, absolute note index,
note-within-octave abs, beat length, output path. -/
structure RenderCell where
  job : ℕ
  note : ℤ
  abs : ℤ
  length : ℕ
  path : String
deriving DecidableEq

/-- The grid walked by main: job in 0..octaves, start = job*12 - offset,
note in start..start+12 with abs = note - start, length in lengths. -/
def mainCells : List RenderCell :=
  (List.range octaves).flatMap fun job =>
    (List.range 12).flatMap fun i =>
      lengths.map fun length =>
        { job := job
          note := (job : ℤ) * 12 - offset + i
          abs := ((job : ℤ) * 12 - offset + i) - ((job : ℤ) * 12 - offset)
          length := length
          path := mkPath job (((job : ℤ) * 12 - offset + i) - ((job : ℤ) * 12 - offset)) length }

/-- The files written by main: for each cell, the worker renders at the
cell's path with waveformer.frequency = ruler.frequency(note) and
waveformer.duration = ruler.duration(length as f64). -/
noncomputable def mainFiles : List (String × ℝ × ℝ) :=
  mainCells.map fun c => (c.path, rulerMain.frequencyAt c.note, rulerMain.duration (c.length : ℝ))

/-- The first cell of the grid (job 0, note -36, abs 0, length 1). -/
def firstCell : RenderCell :=
  { job := 0, note := -36, abs := 0, length := 1, path := mkPath 0 0 1 }

/-- Numeric digit runs of a character list (digits accumulate base 10,
any non-digit closes the current run). -/
def runsAux : List Char → Option ℕ → List ℕ
  | [], none => []
  | [], some a => [a]
  | c :: cs, a =>
    if c.isDigit then runsAux cs (some ((a.getD 0) * 10 + (c.toNat - 48)))
    else
      match a with
      | some x => x :: runsAux cs none
      | none => runsAux cs none

/-- Numeric key of an output path: its digit runs packed base 100 (every
run that occurs in a main path is below 100). -/
def pathKey (s : String) : ℕ :=
  (runsAux s.toList none).foldl (fun a r => a * 100 + r) 0

/-- Boolean check that a list of naturals is strictly increasing. -/
def strictIncr : List ℕ → Bool
  | [] => true
  | [_] => true
  | a :: b :: rest => a < b && strictIncr (b :: rest)

/-! Bit-accurate model of nonnegative binary64 values as mantissa/exponent
pairs (m, e) : ℕ × ℤ with value m * 2 ^ e. -/

/-- Fuel-driven bit length of a natural number. -/
def bitlen : ℕ → ℕ → ℕ
  | 0, _ => 0
  | fuel + 1, n => if n = 0 then 0 else bitlen fuel (n / 2) + 1

/-- Round a / b to the nearest integer, ties to even. -/
def rne (a b : ℕ) : ℕ :=
  let q := a / b
  let r := a % b
  if 2 * r < b then q
  else if b < 2 * r then q + 1
  else if q % 2 = 0 then q else q + 1

/-- Round the exact rational n / d (n, d positive) to the nearest binary64
value: pick the exponent e with n / d ∈ [2^52 * 2^e, 2^53 * 2^e) and round
the 53-bit mantissa to nearest, ties to even. -/
def roundPair (n d : ℕ) : ℕ × ℤ :=
  if n = 0 then (0, 0)
  else
    let k : ℤ := (bitlen 200 n : ℤ) - bitlen 200 d
    let e2 : ℤ :=
      if (if 0 ≤ k then d * 2 ^ k.toNat ≤ n else d ≤ n * 2 ^ (-k).toNat) then k else k - 1
    let e : ℤ := e2 - 52
    let m : ℕ := if 0 ≤ e then rne n (d * 2 ^ e.toNat) else rne (n * 2 ^ (-e).toNat) d
    (m, e)

/-- binary64 division of a nonnegative value by a positive integer constant:
one correctly-rounded operation. -/
def fDiv (x : ℕ × ℤ) (c : ℕ) : ℕ × ℤ :=
  if 0 ≤ x.2 then roundPair (x.1 * 2 ^ x.2.toNat) c else roundPair x.1 (c * 2 ^ (-x.2).toNat)

/-- binary64 multiplication of a nonnegative value by a positive integer
constant: one correctly-rounded operation. -/
def fMul (x : ℕ × ℤ) (c : ℕ) : ℕ × ℤ :=
  if 0 ≤ x.2 then roundPair (x.1 * c * 2 ^ x.2.toNat) 1 else roundPair (x.1 * c) (2 ^ (-x.2).toNat)

/-- binary64 value of a natural number (frame as f64: correctly rounded). -/
def fOfNat (f : ℕ) : ℕ × ℤ := roundPair f 1

/-- Truncation of a nonnegative binary64 value to usize (the `as usize` cast). -/
def fFloor (x : ℕ × ℤ) : ℕ :=
  if 0 ≤ x.2 then x.1 * 2 ^ x.2.toNat else x.1 / 2 ^ (-x.2).toNat

/-- frame_to_duration in double precision: frame as f64 / 48000 f64-divided. -/
def frame_to_duration64 (f : ℕ) : ℕ × ℤ := fDiv (fOfNat f) constants.FRAME_RATE

/-- duration_to_frame in double precision for a nonnegative duration:
f64-multiply by 48000, then the truncating `as usize` cast. -/
def duration_to_frame64 (d : ℕ × ℤ) : ℕ := fFloor (fMul d constants.FRAME_RATE)

/-! Helper lemmas. -/

/-- A strictly increasing key list implies the chain property. -/
theorem strictIncr_chain : ∀ l : List ℕ, strictIncr l = true → List.Chain' (· < ·) l
  | [], _ => List.chain'_nil
  | [_], _ => List.chain'_singleton _
  | a :: b :: rest, h => by
    rw [strictIncr] at h
    simp only [Bool.and_eq_true, decide_eq_true_eq] at h
    exact List.Chain'.cons h.1 (strictIncr_chain (b :: rest) h.2)

/-- A list of strings whose keys strictly increase has no duplicates. -/
theorem nodup_of_strictIncr_map (f : String → ℕ) (l : List String)
    (h : strictIncr (l.map f) = true) : l.Nodup := by
  have hc := strictIncr_chain _ h
  have hp := List.chain'_iff_pairwise.mp hc
  have hne : (l.map f).Nodup := hp.imp fun hab => ne_of_lt hab
  exact hne.of_map

/-- Within i32 range the wrapping cast is the identity and the exponent of
Ruler::power is the floor of note / 12. -/
theorem powExp_eq_fdiv (note : ℤ) (h1 : -(2 ^ 31) ≤ note) (h2 : note < 2 ^ 31) :
    powExp note = note.fdiv 12 := by
  have hw : wrap32 note = note := by unfold wrap32; omega
  unfold powExp
  rw [hw]
  by_cases hn : note < 0
  · rw [if_pos hn]
    have e1 : (note + 1).tdiv 12 = -((-(note + 1)).tdiv 12) := by
      rw [← Int.neg_tdiv, neg_neg]
    have e2 : (-(note + 1)).tdiv 12 = (-(note + 1)) / 12 :=
      Int.tdiv_eq_ediv (by omega) (by omega)
    have e3 : note.fdiv 12 = note / 12 := Int.fdiv_eq_ediv note (by omega)
    omega
  · rw [if_neg hn]
    have e2 : note.tdiv 12 = note / 12 := Int.tdiv_eq_ediv (by omega) (by omega)
    have e3 : note.fdiv 12 = note / 12 := Int.fdiv_eq_ediv note (by omega)
    omega

/-- Ruler::ration is 12-periodic. -/
theorem ration_add_twelve (r : Ruler) (note : ℤ) : r.ration (note + 12) = r.ration note := by
  unfold Ruler.ration
  congr 1
  apply Fin.ext
  show ((note + 12) % 12).toNat = (note % 12).toNat
  omega

/-- Every entry of the default ratio table is nonnegative. -/
theorem default_rations_nonneg (i : Fin 12) : 0 ≤ Ruler.default.rations i := by
  fin_cases i
  · exact (by norm_num : (0 : ℝ) ≤ 1)
  · exact (by norm_num : (0 : ℝ) ≤ 256 / 243)
  · exact (by norm_num : (0 : ℝ) ≤ 9 / 8)
  · exact (by norm_num : (0 : ℝ) ≤ 32 / 27)
  · exact (by norm_num : (0 : ℝ) ≤ 81 / 64)
  · exact (by norm_num : (0 : ℝ) ≤ 4 / 3)
  · exact Real.sqrt_nonneg 2
  · exact (by norm_num : (0 : ℝ) ≤ 3 / 2)
  · exact (by norm_num : (0 : ℝ) ≤ 128 / 81)
  · exact (by norm_num : (0 : ℝ) ≤ 27 / 16)
  · exact (by norm_num : (0 : ℝ) ≤ 16 / 9)
  · exact (by norm_num : (0 : ℝ) ≤ 256 / 128)

/-! Claim theorems. -/

/-- C1 (amended to the i32 range forced by the wrapping cast): for every note
in [-2^31, 2^31), Ruler's octave power function returns 2^k with
k = floor(note / 12) flooring toward negative infinity; in particular
octave_power(-1) = 0.5 and octave_power(-13) = 2^(-2). -/
theorem c1_octave_power (r : Ruler) (note : ℤ)
    (h1 : -(2 ^ 31) ≤ note) (h2 : note < 2 ^ 31) :
    r.power note = (2 : ℝ) ^ (note.fdiv 12)
    ∧ r.power (-1) = 0.5
    ∧ r.power (-13) = (2 : ℝ) ^ (-2 : ℤ) := by
  refine ⟨?_, ?_, ?_⟩
  · unfold Ruler.power
    rw [powExp_eq_fdiv note h1 h2]
  · unfold Ruler.power
    rw [show powExp (-1) = -1 from by decide]
    rw [zpow_neg, zpow_one]
    norm_num
  · unfold Ruler.power
    rw [show powExp (-13) = -2 from by decide]

/-- C1 witness: the amended theorem applied at note = -13. -/
theorem c1_octave_power_witness :
    -(2 ^ 31 : ℤ) ≤ -13 ∧ (-13 : ℤ) < 2 ^ 31
      ∧ Ruler.default.power (-13) = (2 : ℝ) ^ ((-13 : ℤ).fdiv 12) :=
  ⟨by decide, by decide, (c1_octave_power Ruler.default (-13) (by decide) (by decide)).1⟩

/-- C1 counterexample: at note = 2^31 (a valid i64 input) the i64 → i32 cast
in Ruler::power wraps to -2^31, so the returned power is 2^(-178956971), not
2^(floor(2^31 / 12)) = 2^178956970 as the claim states for every integer. -/
theorem c1_counterexample :
    Ruler.default.power (2 ^ 31) ≠ (2 : ℝ) ^ ((2 ^ 31 : ℤ).fdiv 12) := by
  unfold Ruler.power
  rw [show powExp (2 ^ 31) = -178956971 from by decide]
  rw [show (2 ^ 31 : ℤ).fdiv 12 = 178956970 from by decide]
  intro h
  have h2 := zpow_right_injective₀ (by norm_num : (0 : ℝ) < 2) (by norm_num) h
  omega

/-- C3 counterexample: computed in double precision exactly as the code does,
the round trip at the frame count f = 27 returns 26, not 27: 27/48000 rounds
to a binary64 value slightly below the exact quotient, multiplying back by
48000 rounds to just under 27, and the truncating as-usize cast drops to 26. -/
theorem c3_counterexample :
    duration_to_frame64 (frame_to_duration64 27) ≠ 27
    ∧ duration_to_frame64 (frame_to_duration64 27) = 26 := by
  constructor
  · decide
  · decide

/-- C3 (amended: the round trip is exact for the idealised real-number
semantics of the two conversions; under double-precision rounding it can
return f - 1, see the counterexample): for every natural frame count f,
duration_to_frame(frame_to_duration(f)) = f in exact arithmetic. -/
theorem c3_roundtrip (f : ℕ) : duration_to_frame (frame_to_duration f) = f := by
  unfold duration_to_frame frame_to_duration constants.FRAME_RATE
  have h48 : ((48000 : ℕ) : ℝ) ≠ 0 := by norm_num
  rw [div_mul_cancel₀ _ h48]
  rw [Int.floor_natCast]
  exact Int.toNat_natCast f

/-- C5: Ruler's ratio function returns degree_ratios[euclidean_mod(note, 12)];
note = -1 selects degree 11; ratio(0) = 1 for the default table; and ratio is
12-periodic. -/
theorem c5_ration (r : Ruler) :
    (∀ note : ℤ, r.ration note = r.rations ⟨(note % 12).toNat, by omega⟩)
    ∧ r.ration (-1) = r.rations ⟨11, by norm_num⟩
    ∧ Ruler.default.ration 0 = 1
    ∧ ∀ note : ℤ, r.ration (note + 12) = r.ration note := by
  exact ⟨fun note => rfl, rfl, rfl, fun note => ration_add_twelve r note⟩

/-- C6: build supplies the defaults sine and 1.0 s for unset waveform and
duration, and defaults the frequency field from the duration field: with
frequency never set, the built frequency is the duration override when one
was given and 360.0 otherwise. -/
theorem c6_build (b : WaveFormerBuilder) (_hf : b.frequency = none) :
    b.build.waveform = b.waveform.getD wave_forms.sin
    ∧ (b.waveform = none → b.build.waveform = wave_forms.sin)
    ∧ b.build.duration = b.duration.getD 1.0
    ∧ (b.duration = none → b.build.duration = 1.0)
    ∧ b.build.frequency = b.duration.getD 360.0
    ∧ (∀ d : ℝ, b.duration = some d → b.build.frequency = d)
    ∧ (b.duration = none → b.build.frequency = 360.0) := by
  refine ⟨rfl, ?_, rfl, ?_, rfl, ?_, ?_⟩
  · intro h
    simp [WaveFormerBuilder.build, h]
  · intro h
    simp [WaveFormerBuilder.build, h]
  · intro d h
    simp [WaveFormerBuilder.build, h]
  · intro h
    simp [WaveFormerBuilder.build, h]

/-- C6 witness: a builder with only a duration override of 2.0 builds the
sine default and frequency 2.0 taken from the duration field. -/
theorem c6_build_witness :
    (⟨none, some 2.0, none⟩ : WaveFormerBuilder).frequency = none
    ∧ (⟨none, some 2.0, none⟩ : WaveFormerBuilder).build.frequency = 2.0 :=
  ⟨rfl, (c6_build ⟨none, some 2.0, none⟩ rfl).2.2.2.2.2.1 2.0 rfl⟩

/-- C2: frequency(note) = base_frequency * ratio(note) * octave_power(note) for
every Ruler and note; frequency(0) = base_frequency for a Ruler whose table
satisfies the data-model invariant degree_ratios[0] = 1; and the octave-doubling
invariant frequency(note + 12) = frequency(note) * 2 over [-36, 60] (exactly, so
in particular within floating-point tolerance). -/
theorem c2_frequency (r : Ruler) (h : r.rations ⟨0, by norm_num⟩ = 1) :
    (∀ note : ℤ, r.frequencyAt note = r.frequency * r.ration note * r.power note)
    ∧ r.frequencyAt 0 = r.frequency
    ∧ ∀ note : ℤ, -36 ≤ note → note ≤ 60 →
        r.frequencyAt (note + 12) = r.frequencyAt note * 2 := by
  refine ⟨fun note => rfl, ?_, ?_⟩
  · have hr : r.ration 0 = 1 := h
    have hp : r.power 0 = 1 := by
      unfold Ruler.power
      rw [show powExp 0 = 0 from by decide]
      exact zpow_zero 2
    unfold Ruler.frequencyAt
    rw [hr, hp]
    ring
  · intro note hlo hhi
    have hra := ration_add_twelve r note
    have hpw : powExp (note + 12) = powExp note + 1 := by
      interval_cases note <;> decide
    unfold Ruler.frequencyAt Ruler.power
    rw [hra, hpw, zpow_add_one₀ (by norm_num : (2 : ℝ) ≠ 0)]
    ring

/-- C2 witness: the default Ruler satisfies the table invariant and its
frequency at note 0 is its base frequency. -/
theorem c2_frequency_witness :
    Ruler.default.rations ⟨0, by norm_num⟩ = 1
    ∧ Ruler.default.frequencyAt 0 = Ruler.default.frequency :=
  ⟨rfl, (c2_frequency Ruler.default rfl).2.1⟩

/-- C4: render produces exactly duration_to_frame(duration) frames in order;
frame i holds the single sample waveform((frame_to_duration(i) * frequency)
mod 1.0) * 0.5 repeated identically on every output channel, the channel
count being the constant 2. -/
theorem c4_render (w : WaveFormer) :
    w.render.length = duration_to_frame w.duration
    ∧ constants.CHANNELS = 2
    ∧ ∀ i : ℕ, i < duration_to_frame w.duration →
        w.render[i]? = some (List.replicate constants.CHANNELS
          (w.waveform (fmod (frame_to_duration i * w.frequency) 1.0) * 0.5)) := by
  refine ⟨?_, rfl, ?_⟩
  · simp [WaveFormer.render]
  · intro i hi
    simp [WaveFormer.render, List.getElem?_map, List.getElem?_range, hi]

/-- C4 witness: the default-built WaveFormer (1 second duration) has a frame 0
of the stated shape. -/
theorem c4_render_witness :
    0 < duration_to_frame (WaveFormerBuilder.new.build).duration
    ∧ (WaveFormerBuilder.new.build).render[0]? = some (List.replicate constants.CHANNELS
        ((WaveFormerBuilder.new.build).waveform
          (fmod (frame_to_duration 0 * (WaveFormerBuilder.new.build).frequency) 1.0) * 0.5)) := by
  have h : 0 < duration_to_frame (WaveFormerBuilder.new.build).duration := by
    show 0 < duration_to_frame ((none : Option ℝ).getD 1.0)
    norm_num [duration_to_frame, constants.FRAME_RATE]
  exact ⟨h, (c4_render _).2.2 0 h⟩

set_option maxRecDepth 100000 in
set_option maxHeartbeats 1600000 in
/-- C7: the 8-octave, 12-note, 4-length grid of main with offset 36 renders
exactly 8 * 12 * 4 = 384 files, their paths pairwise distinct; every cell has
absolute note index note = job * 12 - offset + degree, and its file is rendered
at the cell path with frequency ruler.frequency(note) and duration
ruler.duration(length). -/
theorem c7_grid :
    mainFiles.length = 384
    ∧ (mainFiles.map Prod.fst).Nodup
    ∧ ∀ c ∈ mainCells,
        c.note = (c.job : ℤ) * 12 - offset + c.abs
        ∧ (c.path, rulerMain.frequencyAt ((c.job : ℤ) * 12 - offset + c.abs),
            rulerMain.duration (c.length : ℝ)) ∈ mainFiles := by
  have hall : ∀ c ∈ mainCells, c.note = (c.job : ℤ) * 12 - offset + c.abs := by decide
  refine ⟨?_, ?_, ?_⟩
  · show (mainCells.map _).length = 384
    rw [List.length_map]
    decide
  · have hmap : mainFiles.map Prod.fst = mainCells.map RenderCell.path := by
      unfold mainFiles
      rw [List.map_map]
      rfl
    rw [hmap]
    exact nodup_of_strictIncr_map pathKey _ (by decide)
  · intro c hc
    refine ⟨hall c hc, ?_⟩
    rw [← hall c hc]
    exact List.mem_map.mpr ⟨c, hc, rfl⟩

set_option maxRecDepth 100000 in
set_option maxHeartbeats 1600000 in
/-- C7 witness: the first grid cell (job 0, note -36, degree 0, length 1) is in
the grid and its file is among the rendered files. -/
theorem c7_grid_witness :
    firstCell ∈ mainCells
    ∧ (firstCell.path, rulerMain.frequencyAt ((firstCell.job : ℤ) * 12 - offset + firstCell.abs),
        rulerMain.duration (firstCell.length : ℝ)) ∈ mainFiles := by
  have hm : firstCell ∈ mainCells := by decide
  exact ⟨hm, (c7_grid.2.2 firstCell hm).2⟩

/-- C8: on [0, 1) all four waveforms stay within [-1, 1] and are deterministic,
and the spot values sin(0) = 0, sqr(0) = 1, sqr(0.5) = -1, saw(0) = 1,
saw(1) = -1, tri(0) = 0, tri(0.25) = 1 and tri(0.75) = -1 hold. -/
theorem c8_waveforms (x : ℝ) (h0 : 0 ≤ x) (h1 : x < 1) :
    ((-1 ≤ wave_forms.sqr x ∧ wave_forms.sqr x ≤ 1)
      ∧ (-1 ≤ wave_forms.saw x ∧ wave_forms.saw x ≤ 1)
      ∧ (-1 ≤ wave_forms.tri x ∧ wave_forms.tri x ≤ 1)
      ∧ (-1 ≤ wave_forms.sin x ∧ wave_forms.sin x ≤ 1))
    ∧ (wave_forms.sqr x = wave_forms.sqr x ∧ wave_forms.saw x = wave_forms.saw x
      ∧ wave_forms.tri x = wave_forms.tri x ∧ wave_forms.sin x = wave_forms.sin x)
    ∧ wave_forms.sin 0 = 0
    ∧ wave_forms.sqr 0 = 1
    ∧ wave_forms.sqr 0.5 = -1
    ∧ wave_forms.saw 0 = 1
    ∧ wave_forms.saw 1 = -1
    ∧ wave_forms.tri 0 = 0
    ∧ wave_forms.tri 0.25 = 1
    ∧ wave_forms.tri 0.75 = -1 := by
  refine ⟨⟨?_, ?_, ?_, ?_⟩, ⟨rfl, rfl, rfl, rfl⟩, ?_, ?_, ?_, ?_, ?_, ?_, ?_, ?_⟩
  · unfold wave_forms.sqr
    split_ifs <;> constructor <;> norm_num
  · unfold wave_forms.saw
    constructor <;> norm_num <;> linarith
  · unfold wave_forms.tri
    split_ifs with ha hb <;> constructor <;> norm_num <;> linarith
  · exact ⟨Real.neg_one_le_sin _, Real.sin_le_one _⟩
  · simp [wave_forms.sin]
  · norm_num [wave_forms.sqr]
  · norm_num [wave_forms.sqr]
  · norm_num [wave_forms.saw]
  · norm_num [wave_forms.saw]
  · norm_num [wave_forms.tri]
  · norm_num [wave_forms.tri]
  · norm_num [wave_forms.tri]

/-- C8 witness: the theorem applied at phase 0. -/
theorem c8_waveforms_witness :
    (0 : ℝ) ≤ 0 ∧ (0 : ℝ) < 1 ∧ (-1 ≤ wave_forms.sqr 0 ∧ wave_forms.sqr 0 ≤ 1) :=
  ⟨le_refl 0, zero_lt_one, (c8_waveforms 0 (le_refl 0) zero_lt_one).1.1⟩

/-- C9: the default table entry at degree 11 is 256/128 = 2 exactly, so the
default Ruler maps the consecutive note indices 11 and 12 to the same
frequency, twice the base frequency. -/
theorem c9_degree_eleven :
    Ruler.default.rations ⟨11, by norm_num⟩ = 2
    ∧ Ruler.default.frequencyAt 11 = Ruler.default.frequencyAt 12
    ∧ Ruler.default.frequencyAt 12 = 2 * Ruler.default.frequency := by
  have ht : Ruler.default.rations ⟨11, by norm_num⟩ = 256 / 128 := rfl
  have h11 : Ruler.default.ration 11 = 256 / 128 := rfl
  have h0 : Ruler.default.ration 12 = 1 := rfl
  have hp11 : Ruler.default.power 11 = 1 := by
    unfold Ruler.power
    rw [show powExp 11 = 0 from by decide]
    exact zpow_zero 2
  have hp12 : Ruler.default.power 12 = 2 := by
    unfold Ruler.power
    rw [show powExp 12 = 1 from by decide]
    exact zpow_one 2
  refine ⟨by rw [ht]; norm_num, ?_, ?_⟩
  · unfold Ruler.frequencyAt
    rw [h11, h0, hp11, hp12]
    norm_num
  · unfold Ruler.frequencyAt
    rw [h0, hp12]
    ring

/-- C10: every phase the synthesis loop hands to a waveform is in [0, 1):
for every frame i and every frequency f at least 0 (which covers every
frequency the main Ruler produces, all of them nonnegative), the value
(frame_to_duration(i) * f) mod 1.0 computed in render lies in [0, 1). -/
theorem c10_phase (i : ℕ) (f : ℝ) (hf : 0 ≤ f) :
    (0 ≤ fmod (frame_to_duration i * f) 1.0 ∧ fmod (frame_to_duration i * f) 1.0 < 1)
    ∧ ∀ note : ℤ, 0 ≤ rulerMain.frequencyAt note := by
  have hx : 0 ≤ frame_to_duration i * f := by
    apply mul_nonneg _ hf
    unfold frame_to_duration
    positivity
  have key : ∀ y : ℝ, 0 ≤ y → fmod y 1.0 = Int.fract y := by
    intro y hy
    unfold fmod realTrunc
    rw [show (1.0 : ℝ) = 1 from by norm_num, div_one, one_mul, if_pos hy]
    rfl
  rw [key _ hx]
  refine ⟨⟨Int.fract_nonneg _, Int.fract_lt_one _⟩, ?_⟩
  intro note
  unfold Ruler.frequencyAt
  apply mul_nonneg (mul_nonneg ?_ ?_) ?_
  · exact (by norm_num : (0 : ℝ) ≤ 440)
  · exact default_rations_nonneg _
  · unfold Ruler.power
    exact zpow_nonneg (by norm_num) _

/-- C10 witness: the theorem applied at frame 0 and frequency 0. -/
theorem c10_phase_witness :
    (0 : ℝ) ≤ 0
    ∧ (0 ≤ fmod (frame_to_duration 0 * 0) 1.0 ∧ fmod (frame_to_duration 0 * 0) 1.0 < 1) :=
  ⟨le_refl 0, (c10_phase 0 0 (le_refl 0)).1⟩

end Muza
